import Mathlib

/-!
Verification of the symbol-recognition core of the LVQT-ss/symbolReg
repository (`src/utils/symbolUtils.ts` and the pipeline variant in
`src/unnamed/part_000`).

Embedding conventions:
* JavaScript numbers are idealized as exact rationals (`ℚ`).  Numeric
  literals of the source (`0.5`, `2.0`, `0.3`, `5`) become the rationals
  `1/2`, `2`, `3/10`, `5`.
* `Math.sqrt(d) > tolerance` is embedded by the exact algebraic
  equivalence `tolerance < 0 ∨ tolerance² < d` (valid because
  `Math.sqrt` of a nonnegative number is nonnegative and squaring is
  monotone on nonnegatives), so no square root is needed.
* `Math.atan2(dy, dx) * 180 / Math.PI` is transcendental; it is
  abstracted as an explicit function parameter `az : ℚ → ℚ → ℚ` passed
  through `calculateAngle`, `calculateCurvature`, `extractFeatures` and
  `recognizeSymbol`.  No classification decision of the source reads the
  curvature value, so every theorem below is proved for an arbitrary
  `az`, only witnesses instantiate it (with `fun _ _ => 0`).
* The JavaScript reference inequality `result[result.length-1] !==
  path[path.length-1]` at the end of `simplifyPath` is embedded as "the
  last input point was not retained by the decimation loop", which is
  exactly the reference comparison when all array entries are distinct
  objects (the gesture layer constructs every point object freshly).
* For the validity filter of `extractFeatures` in
  `src/utils/symbolUtils.ts` the possible malformed inputs are embedded
  by `JSVal` (a finite number, `NaN`, `Infinity`, `-Infinity`, or a
  missing / non-numeric value) and nullable entries by `Option RawPoint`.
-/

/-- Point from the source: a pair of coordinates.  The idealized embedding
uses exact rationals for JavaScript numbers. -/
structure Point where
  x : ℚ
  y : ℚ
deriving DecidableEq, Repr

/-- BoundingBox from the source, with the derived `width`/`height` fields
stored exactly as the source returns them. -/
structure BoundingBox where
  minX : ℚ
  maxX : ℚ
  minY : ℚ
  maxY : ℚ
  width : ℚ
  height : ℚ
deriving DecidableEq, Repr

/-- getPathBoundingBox from the source.  The source initializes the
accumulators with `±Infinity` and folds `Math.min` / `Math.max` over the
path; for a nonempty path this equals folding from the first point's
coordinates, which is how the nonempty case is embedded (the empty case
returns the all-zero box, as in the source's early return). -/
def getPathBoundingBox : List Point → BoundingBox
  | [] => ⟨0, 0, 0, 0, 0, 0⟩
  | p :: ps =>
      let minX := ps.foldl (fun a q => min a q.x) p.x
      let maxX := ps.foldl (fun a q => max a q.x) p.x
      let minY := ps.foldl (fun a q => min a q.y) p.y
      let maxY := ps.foldl (fun a q => max a q.y) p.y
      ⟨minX, maxX, minY, maxY, maxX - minX, maxY - minY⟩

/-- distGtTol embeds the source's `Math.sqrt(dx*dx + dy*dy) > tolerance`
test of `simplifyPath` without a square root: for a nonnegative radicand
`d`, `sqrt d > t` holds iff `t < 0` or `t * t < d`. -/
def distGtTol (lastPoint p : Point) (tolerance : ℚ) : Prop :=
  tolerance < 0 ∨
    tolerance * tolerance <
      (p.x - lastPoint.x) * (p.x - lastPoint.x) +
      (p.y - lastPoint.y) * (p.y - lastPoint.y)

instance instDecidableDistGtTol (lastPoint p : Point) (tolerance : ℚ) :
    Decidable (distGtTol lastPoint p tolerance) := by
  unfold distGtTol; infer_instance

/-- simplifyAux embeds the decimation loop of `simplifyPath`: it walks the
points after the first, keeps a point when its distance from the last
retained point exceeds the tolerance, and reports whether the final input
point was retained by the loop (the source checks this with a reference
comparison before force-appending the last point). -/
def simplifyAux (tolerance : ℚ) (lastPoint : Point) : List Point → List Point × Bool
  | [] => ([], false)
  | [p] => if distGtTol lastPoint p tolerance then ([p], true) else ([], false)
  | p :: q :: rest =>
      if distGtTol lastPoint p tolerance then
        let pr := simplifyAux tolerance p (q :: rest)
        (p :: pr.1, pr.2)
      else simplifyAux tolerance lastPoint (q :: rest)

/-- simplifyPath from the source (identical in `src/utils/symbolUtils.ts`
and `src/unnamed/part_000`; the source gives `tolerance` the default
value 5, which call sites of this embedding pass explicitly).  Paths of
length at most 2 are returned unchanged; otherwise the first point is
kept, the loop decimates, and the original last point is force-appended
when the loop did not retain it. -/
def simplifyPath (path : List Point) (tolerance : ℚ) : List Point :=
  match path with
  | [] => []
  | [p] => [p]
  | [p, q] => [p, q]
  | p :: rest =>
      let pr := simplifyAux tolerance p rest
      if pr.2 then p :: pr.1
      else p :: pr.1 ++ [rest.getLastD p]

/-- normalizePath from the source: degenerate bounding boxes (zero width
or zero height) return the input unchanged, otherwise every point is
remapped to the unit box. -/
def normalizePath (path : List Point) : List Point :=
  let bbox := getPathBoundingBox path
  if bbox.width = 0 ∨ bbox.height = 0 then path
  else
    path.map fun point =>
      ⟨(point.x - bbox.minX) / bbox.width, (point.y - bbox.minY) / bbox.height⟩

/-- calculateAngle from `src/unnamed/part_000`:
`Math.atan2(p2.y - p1.y, p2.x - p1.x) * 180 / Math.PI`, with the
transcendental `atan2`-in-degrees abstracted as the parameter `az`. -/
def calculateAngle (az : ℚ → ℚ → ℚ) (p1 p2 : Point) : ℚ :=
  az (p2.y - p1.y) (p2.x - p1.x)

/-- angleDiffs embeds the loop body of `calculateCurvature`: for every
interior point the absolute bearing difference between the incoming and
outgoing segment, wrapped to at most 180 degrees. -/
def angleDiffs (az : ℚ → ℚ → ℚ) : List Point → List ℚ
  | p :: q :: r :: rest =>
      (let angle1 := calculateAngle az p q
       let angle2 := calculateAngle az q r
       let angleDiff := |angle2 - angle1|
       if angleDiff > 180 then 360 - angleDiff else angleDiff) ::
        angleDiffs az (q :: r :: rest)
  | _ => []

/-- calculateCurvature from `src/unnamed/part_000`: the average wrapped
bearing change over all interior points, 0 for paths shorter than 3. -/
def calculateCurvature (az : ℚ → ℚ → ℚ) (path : List Point) : ℚ :=
  if path.length < 3 then 0
  else (angleDiffs az path).sum / ((path.length - 2 : ℕ) : ℚ)

/-- Features record from the source. -/
structure Features where
  firstDirection : String
  startY : ℚ
  midY : ℚ
  endY : ℚ
  curvature : ℚ
  aspectRatio : ℚ
  length : ℕ
  normalizedPath : List Point
deriving DecidableEq, Repr

/-- extractFeatures from `src/unnamed/part_000` (the variant in
`src/utils/symbolUtils.ts` adds the validity filter embedded separately
as `safePath` below).  JavaScript `slice(a, b)` becomes `take`/`drop`,
indexing `p[i]` becomes `getD i` with a default that is never reached for
the nonempty lists produced here, and `bbox.height || 1` becomes an
`if bbox.height = 0` test (the height of a rational bounding box is
never `NaN`). -/
def extractFeatures (az : ℚ → ℚ → ℚ) (path : List Point) : Option Features :=
  if path.length < 5 then none
  else
    let simplifiedPath := simplifyPath path 5
    let normalizedPath := normalizePath simplifiedPath
    if normalizedPath.length < 3 then none
    else
      let firstThird := normalizedPath.take (normalizedPath.length / 3)
      let middleThird :=
        (normalizedPath.take (2 * normalizedPath.length / 3)).drop
          (normalizedPath.length / 3)
      let lastThird := normalizedPath.drop (2 * normalizedPath.length / 3)
      let firstDirection :=
        if (lastThird.getD 0 ⟨0, 0⟩).x - (firstThird.getD 0 ⟨0, 0⟩).x > 0
        then "right" else "left"
      let startY := (normalizedPath.getD 0 ⟨0, 0⟩).y
      let midY := (normalizedPath.getD (normalizedPath.length / 2) ⟨0, 0⟩).y
      let endY := (normalizedPath.getD (normalizedPath.length - 1) ⟨0, 0⟩).y
      let curvature := calculateCurvature az normalizedPath
      let bbox := getPathBoundingBox normalizedPath
      let aspectRatio := bbox.width / (if bbox.height = 0 then 1 else bbox.height)
      some ⟨firstDirection, startY, midY, endY, curvature, aspectRatio,
        normalizedPath.length, normalizedPath⟩

/-- ClassificationResult of the spec, as returned by `recognizeSymbol` in
`src/unnamed/part_000`: a symbol label and a confidence score. -/
structure RecognitionResult where
  symbol : String
  confidence : ℚ
deriving DecidableEq, Repr

/-- computeScores embeds the score-accumulation block of
`recognizeSymbol`: inside the aspect-ratio gate, each directional symbol
earns 40 for its apex check plus 30 for the downward-dip check plus 30
for the level-endpoints check; outside the gate both scores stay 0.  The
pair is (score of the greater-than symbol, score of the less-than
symbol). -/
def computeScores (features : Features) : ℚ × ℚ :=
  if features.aspectRatio > 1/2 ∧ features.aspectRatio < 2 then
    let firstPoint := features.normalizedPath.getD 0 ⟨0, 0⟩
    let midPoint :=
      features.normalizedPath.getD (features.normalizedPath.length / 2) ⟨0, 0⟩
    let lastPoint :=
      features.normalizedPath.getD (features.normalizedPath.length - 1) ⟨0, 0⟩
    let gtScore :=
      if midPoint.x > firstPoint.x ∧ midPoint.x > lastPoint.x then
        40 + (if midPoint.y > firstPoint.y ∧ midPoint.y > lastPoint.y then 30 else 0)
           + (if |firstPoint.y - lastPoint.y| < 3/10 then 30 else 0)
      else 0
    let ltScore :=
      if midPoint.x < firstPoint.x ∧ midPoint.x < lastPoint.x then
        40 + (if midPoint.y > firstPoint.y ∧ midPoint.y > lastPoint.y then 30 else 0)
           + (if |firstPoint.y - lastPoint.y| < 3/10 then 30 else 0)
      else 0
    (gtScore, ltScore)
  else (0, 0)

/-- bestOf embeds the `Object.entries(scores).forEach` maximum selection
of `recognizeSymbol`: starting from symbol `=` with score 0, each entry
replaces the current best exactly when its score is strictly greater.
`Object.entries` yields the insertion order, so the caller passes the
greater-than entry first. -/
def bestOf (entries : List (String × ℚ)) : String × ℚ :=
  entries.foldl (fun acc e => if e.2 > acc.2 then (e.1, e.2) else acc) ("=", 0)

/-- recognizeSymbol from `src/unnamed/part_000`, the spec's `classify`:
reject paths shorter than 5 points, extract features, score the two
directional symbols, and return the best symbol when its score reaches
40, capping the confidence at 100.  (The `src/utils/symbolUtils.ts`
variant of this function is identical except that it omits the
confidence field from the returned object; its `catch` fallback is
unreachable for well-formed point arrays because every operation above
is total.) -/
def recognizeSymbol (az : ℚ → ℚ → ℚ) (path : List Point) : RecognitionResult :=
  if path.length < 5 then ⟨"=", 0⟩
  else
    match extractFeatures az path with
    | none => ⟨"=", 0⟩
    | some features =>
        let scores := computeScores features
        let best := bestOf [(">", scores.1), ("<", scores.2)]
        if best.2 < 40 then ⟨"=", 0⟩
        else ⟨best.1, min 100 best.2⟩

/-- JSVal models the values a malformed coordinate may hold in
JavaScript: a finite number, `NaN`, `Infinity`, `-Infinity`, or a
missing / non-numeric value (`undefined`, `null`, a string, ...). -/
inductive JSVal where
  | num : ℚ → JSVal
  | nan : JSVal
  | inf : JSVal
  | negInf : JSVal
  | undef : JSVal
deriving DecidableEq, Repr

/-- RawPoint is a candidate point before validation: each coordinate may
be any JavaScript value. -/
structure RawPoint where
  x : JSVal
  y : JSVal
deriving DecidableEq, Repr

/-- jsTypeofNumber embeds the `typeof v === "number"` test: `NaN`,
`Infinity` and `-Infinity` are numbers in JavaScript; a missing or
non-numeric value is not. -/
def jsTypeofNumber : JSVal → Bool
  | .undef => false
  | _ => true

/-- jsIsNaN embeds the `isNaN(v)` test after `typeof v === "number"` has
succeeded: only `NaN` itself passes. -/
def jsIsNaN : JSVal → Bool
  | .nan => true
  | _ => false

/-- JSVal.isFiniteNum holds exactly for finite numbers, mirroring the
spec's notion "both coordinates finite (not NaN, not infinity)". -/
def JSVal.isFiniteNum : JSVal → Bool
  | .num _ => true
  | _ => false

/-- safePath embeds the validity filter at the start of
`extractFeatures` in `src/utils/symbolUtils.ts` (the `safePath`
constant): keep an entry exactly when it is present and both coordinates
are of type number and not `NaN`.  The filtered entries are what the
source then hands to `simplifyPath`. -/
def safePath (path : List (Option RawPoint)) : List (Option RawPoint) :=
  path.filter fun entry =>
    match entry with
    | none => false
    | some point =>
        jsTypeofNumber point.x && jsTypeofNumber point.y &&
          !jsIsNaN point.x && !jsIsNaN point.y

example : simplifyPath [⟨0,0⟩, ⟨1,0⟩, ⟨2,0⟩, ⟨30,0⟩, ⟨60,0⟩] 5 =
    [⟨0,0⟩, ⟨30,0⟩, ⟨60,0⟩] := by
  norm_num [simplifyPath, simplifyAux, distGtTol]

example : simplifyPath [⟨0,0⟩, ⟨0,0⟩, ⟨0,0⟩] 0 = [⟨0,0⟩, ⟨0,0⟩] := by
  norm_num [simplifyPath, simplifyAux, distGtTol]

example : normalizePath [⟨0,0⟩, ⟨50,100⟩, ⟨25,50⟩] =
    [⟨0,0⟩, ⟨1,1⟩, ⟨1/2,1/2⟩] := by
  norm_num [normalizePath, getPathBoundingBox]

example : normalizePath [⟨0,0⟩, ⟨40,0⟩] = [⟨0,0⟩, ⟨40,0⟩] := by
  norm_num [normalizePath, getPathBoundingBox]

example :
    extractFeatures (fun _ _ => 0) [⟨0,0⟩, ⟨10,0⟩, ⟨20,0⟩, ⟨30,0⟩, ⟨40,0⟩] =
      some ⟨"right", 0, 0, 0, 0, 40, 5, [⟨0,0⟩, ⟨10,0⟩, ⟨20,0⟩, ⟨30,0⟩, ⟨40,0⟩]⟩ := by
  norm_num [extractFeatures, simplifyPath, simplifyAux, distGtTol, normalizePath,
    getPathBoundingBox, calculateCurvature, angleDiffs, calculateAngle]

example :
    recognizeSymbol (fun _ _ => 0) [⟨0,0⟩, ⟨25,25⟩, ⟨50,50⟩, ⟨25,75⟩, ⟨0,100⟩] =
      ⟨">", 40⟩ := by
  norm_num [recognizeSymbol, extractFeatures, simplifyPath, simplifyAux, distGtTol,
    normalizePath, getPathBoundingBox, calculateCurvature, angleDiffs,
    calculateAngle, computeScores, bestOf]

example :
    recognizeSymbol (fun _ _ => 0) [⟨0,0⟩, ⟨50,50⟩, ⟨0,100⟩] = ⟨"=", 0⟩ := by
  norm_num [recognizeSymbol]

example : safePath [some ⟨.inf, .num 0⟩, some ⟨.nan, .num 1⟩, none,
    some ⟨.num 2, .num 3⟩, some ⟨.undef, .num 4⟩] =
    [some ⟨.inf, .num 0⟩, some ⟨.num 2, .num 3⟩] := by
  norm_num [safePath, jsTypeofNumber, jsIsNaN, List.filter]

/-! ### Helper lemmas about the decimation loop of simplifyPath -/

lemma simplifyAux_length (tolerance : ℚ) :
    ∀ (l : List Point) (a : Point),
      (simplifyAux tolerance a l).1.length ≤ l.length := by
  intro l
  induction l with
  | nil => intro a; simp [simplifyAux]
  | cons p tl ih =>
      intro a
      cases tl with
      | nil =>
          simp only [simplifyAux]
          split <;> simp
      | cons q rest =>
          simp only [simplifyAux]
          split
          · simpa using Nat.succ_le_succ (ih p)
          · exact le_trans (ih a) (by simp)

lemma simplifyAux_length_lt (tolerance : ℚ) :
    ∀ (l : List Point) (a : Point), l ≠ [] →
      (simplifyAux tolerance a l).2 = false →
      (simplifyAux tolerance a l).1.length < l.length := by
  intro l
  induction l with
  | nil => intro a h; exact absurd rfl h
  | cons p tl ih =>
      intro a _ hflag
      cases tl with
      | nil =>
          simp only [simplifyAux] at hflag ⊢
          split <;> simp_all
      | cons q rest =>
          simp only [simplifyAux] at hflag ⊢
          split
          · have hf : (simplifyAux tolerance p (q :: rest)).2 = false := by
              split at hflag <;> simp_all
            have := ih p (by simp) hf
            simpa using Nat.succ_lt_succ this
          · have hf : (simplifyAux tolerance a (q :: rest)).2 = false := by
              split at hflag <;> simp_all
            exact lt_trans (ih a (by simp) hf) (by simp)

lemma simplifyAux_getLast (tolerance : ℚ) :
    ∀ (l : List Point) (a : Point),
      (simplifyAux tolerance a l).2 = true →
      (simplifyAux tolerance a l).1.getLast? = l.getLast? := by
  intro l
  induction l with
  | nil => intro a h; simp [simplifyAux] at h
  | cons p tl ih =>
      intro a hflag
      cases tl with
      | nil =>
          simp only [simplifyAux] at hflag ⊢
          split at hflag <;> simp_all
      | cons q rest =>
          simp only [simplifyAux] at hflag ⊢
          by_cases hd : distGtTol a p tolerance
          · rw [if_pos hd] at hflag ⊢
            simp only at hflag ⊢
            have hlast := ih p hflag
            cases hl : (simplifyAux tolerance p (q :: rest)).1 with
            | nil =>
                rw [hl] at hlast
                have : q :: rest = [] :=
                  List.getLast?_eq_none_iff.mp (by simpa using hlast.symm)
                simp at this
            | cons r rs =>
                rw [List.getLast?_cons_cons, List.getLast?_cons_cons]
                rw [hl] at hlast
                exact hlast
          · rw [if_neg hd] at hflag ⊢
            rw [ih a hflag, List.getLast?_cons_cons]

lemma getLast?_cons_append_singleton (p x : Point) (l : List Point) :
    (p :: l ++ [x]).getLast? = some x := by
  rw [List.getLast?_concat]

lemma simplifyAux_all_kept (tolerance : ℚ) (hneg : tolerance < 0) :
    ∀ (l : List Point) (a : Point), l ≠ [] →
      simplifyAux tolerance a l = (l, true) := by
  intro l
  induction l with
  | nil => intro a h; exact absurd rfl h
  | cons p tl ih =>
      intro a _
      cases tl with
      | nil => simp [simplifyAux, distGtTol, hneg]
      | cons q rest =>
          have hd : distGtTol a p tolerance := Or.inl hneg
          simp only [simplifyAux]
          rw [if_pos hd, ih p (by simp)]

/-! ### Claim C6: simplifyPath never grows the path, keeps the endpoints,
and is the identity on paths of length at most 2 -/

/-- C6: for every non-empty input path and every tolerance, `simplifyPath`
returns a path no longer than its input whose first element is the
input's first point and whose last element is the input's last point;
and every input path of length at most 2 is returned unchanged. -/
theorem simplifyPath_preserves_endpoints (path : List Point) (tolerance : ℚ) :
    (path ≠ [] →
      (simplifyPath path tolerance).length ≤ path.length ∧
      (simplifyPath path tolerance).head? = path.head? ∧
      (simplifyPath path tolerance).getLast? = path.getLast?) ∧
    (path.length ≤ 2 → simplifyPath path tolerance = path) := by
  match path with
  | [] => exact ⟨fun hne => absurd rfl hne, fun _ => rfl⟩
  | [p] => simp [simplifyPath]
  | [p, q] => simp [simplifyPath]
  | p :: q :: r :: rest =>
      constructor
      · intro hne
        simp only [simplifyPath]
        by_cases hb : (simplifyAux tolerance p (q :: r :: rest)).2
        · rw [if_pos hb]
          refine ⟨?_, by simp, ?_⟩
          · simpa using Nat.succ_le_succ
              (simplifyAux_length tolerance (q :: r :: rest) p)
          · have hlast := simplifyAux_getLast tolerance (q :: r :: rest) p hb
            cases hl : (simplifyAux tolerance p (q :: r :: rest)).1 with
            | nil =>
                rw [hl] at hlast
                have : q :: r :: rest = [] :=
                  List.getLast?_eq_none_iff.mp (by simpa using hlast.symm)
                simp at this
            | cons s ss =>
                rw [hl] at hlast
                rw [List.getLast?_cons_cons, List.getLast?_cons_cons, ← hlast]
        · rw [if_neg hb]
          refine ⟨?_, by simp, ?_⟩
          · have hlt := simplifyAux_length_lt tolerance (q :: r :: rest) p
              (by simp) (by simpa using hb)
            simp only [List.length_cons] at hlt
            simp only [List.length_append, List.length_cons, List.length_singleton,
              List.length_nil]
            omega
          · rw [getLast?_cons_append_singleton]
            rcases hy : (q :: r :: rest).getLast? with _ | y
            · exact absurd (List.getLast?_eq_none_iff.mp hy) (by simp)
            · rw [List.getLastD_eq_getLast?, hy, List.getLast?_cons_cons, hy]
              rfl
      · intro hlen
        simp at hlen

/-- C6 witness: the endpoint-preservation theorem applied to a concrete
5-point path (which decimates to 3 points) and to a concrete 2-point
path (returned unchanged). -/
theorem simplifyPath_preserves_endpoints_witness :
    ((simplifyPath [⟨0,0⟩, ⟨1,0⟩, ⟨2,0⟩, ⟨30,0⟩, ⟨60,0⟩] 5).length ≤ 5 ∧
      (simplifyPath [⟨0,0⟩, ⟨1,0⟩, ⟨2,0⟩, ⟨30,0⟩, ⟨60,0⟩] 5).head? =
        some ⟨0,0⟩ ∧
      (simplifyPath [⟨0,0⟩, ⟨1,0⟩, ⟨2,0⟩, ⟨30,0⟩, ⟨60,0⟩] 5).getLast? =
        some ⟨60,0⟩) ∧
    simplifyPath [⟨3,4⟩, ⟨5,6⟩] 5 = [⟨3,4⟩, ⟨5,6⟩] := by
  have h1 := (simplifyPath_preserves_endpoints
    [⟨0,0⟩, ⟨1,0⟩, ⟨2,0⟩, ⟨30,0⟩, ⟨60,0⟩] 5).1 (by simp)
  have h2 := (simplifyPath_preserves_endpoints [⟨3,4⟩, ⟨5,6⟩] 5).2 (by simp)
  exact ⟨by simpa using h1, h2⟩

/-! ### Claim C7: behaviour of simplifyPath for tolerance at most 0 -/

/-- C7 counterexample: at tolerance exactly 0, a point whose distance
from the last retained point is 0 fails the strict `distance > tolerance`
test and is dropped, so a path of three coincident points is NOT returned
unchanged (it loses its middle point). -/
theorem simplifyPath_zero_tolerance_cex :
    simplifyPath [⟨0,0⟩, ⟨0,0⟩, ⟨0,0⟩] 0 ≠ [⟨0,0⟩, ⟨0,0⟩, ⟨0,0⟩] := by
  norm_num [simplifyPath, simplifyAux, distGtTol]

/-- C7 amended: for every strictly negative tolerance every point is
retained, i.e. `simplifyPath` returns its input unchanged (at tolerance
exactly 0, points coincident with the last retained point are dropped,
as the counterexample shows). -/
theorem simplifyPath_neg_tolerance_id (path : List Point) (tolerance : ℚ)
    (hneg : tolerance < 0) : simplifyPath path tolerance = path := by
  match path with
  | [] => rfl
  | [p] => rfl
  | [p, q] => rfl
  | p :: q :: r :: rest =>
      simp only [simplifyPath]
      rw [simplifyAux_all_kept tolerance hneg (q :: r :: rest) p (by simp)]
      simp

/-- C7 witness: the amended theorem applied at tolerance -1 to a concrete
path with repeated points. -/
theorem simplifyPath_neg_tolerance_id_witness :
    (-1 : ℚ) < 0 ∧
      simplifyPath [⟨0,0⟩, ⟨0,0⟩, ⟨0,0⟩] (-1) = [⟨0,0⟩, ⟨0,0⟩, ⟨0,0⟩] :=
  ⟨by norm_num, simplifyPath_neg_tolerance_id _ _ (by norm_num)⟩

/-! ### Helper lemmas about getPathBoundingBox and normalizePath -/

lemma foldl_min_le_init (f : Point → ℚ) :
    ∀ (l : List Point) (c : ℚ), l.foldl (fun a q => min a (f q)) c ≤ c := by
  intro l
  induction l with
  | nil => intro c; simp
  | cons hd tl ih =>
      intro c
      calc tl.foldl (fun a q => min a (f q)) (min c (f hd)) ≤ min c (f hd) := ih _
        _ ≤ c := min_le_left _ _

lemma foldl_min_le_mem (f : Point → ℚ) :
    ∀ (l : List Point) (c : ℚ) (pt : Point), pt ∈ l →
      l.foldl (fun a q => min a (f q)) c ≤ f pt := by
  intro l
  induction l with
  | nil => intro c pt h; simp at h
  | cons hd tl ih =>
      intro c pt h
      rcases List.mem_cons.mp h with h | h
      · subst h
        calc tl.foldl (fun a q => min a (f q)) (min c (f pt)) ≤ min c (f pt) :=
              foldl_min_le_init f tl _
          _ ≤ f pt := min_le_right _ _
      · exact ih _ pt h

lemma le_foldl_max_init (f : Point → ℚ) :
    ∀ (l : List Point) (c : ℚ), c ≤ l.foldl (fun a q => max a (f q)) c := by
  intro l
  induction l with
  | nil => intro c; simp
  | cons hd tl ih =>
      intro c
      calc c ≤ max c (f hd) := le_max_left _ _
        _ ≤ tl.foldl (fun a q => max a (f q)) (max c (f hd)) := ih _

lemma le_foldl_max_mem (f : Point → ℚ) :
    ∀ (l : List Point) (c : ℚ) (pt : Point), pt ∈ l →
      f pt ≤ l.foldl (fun a q => max a (f q)) c := by
  intro l
  induction l with
  | nil => intro c pt h; simp at h
  | cons hd tl ih =>
      intro c pt h
      rcases List.mem_cons.mp h with h | h
      · subst h
        calc f pt ≤ max c (f pt) := le_max_right _ _
          _ ≤ tl.foldl (fun a q => max a (f q)) (max c (f pt)) :=
              le_foldl_max_init f tl _
      · exact ih _ pt h

lemma bbox_bounds (path : List Point) (pt : Point) (h : pt ∈ path) :
    (getPathBoundingBox path).minX ≤ pt.x ∧
      pt.x ≤ (getPathBoundingBox path).maxX ∧
      (getPathBoundingBox path).minY ≤ pt.y ∧
      pt.y ≤ (getPathBoundingBox path).maxY := by
  cases path with
  | nil => simp at h
  | cons p ps =>
      simp only [getPathBoundingBox]
      rcases List.mem_cons.mp h with h | h
      · subst h
        exact ⟨foldl_min_le_init _ _ _, le_foldl_max_init _ _ _,
          foldl_min_le_init _ _ _, le_foldl_max_init _ _ _⟩
      · exact ⟨foldl_min_le_mem _ _ _ _ h, le_foldl_max_mem _ _ _ _ h,
          foldl_min_le_mem _ _ _ _ h, le_foldl_max_mem _ _ _ _ h⟩

lemma bbox_min_le_max (path : List Point) (hne : path ≠ []) :
    (getPathBoundingBox path).minX ≤ (getPathBoundingBox path).maxX ∧
      (getPathBoundingBox path).minY ≤ (getPathBoundingBox path).maxY := by
  cases path with
  | nil => exact absurd rfl hne
  | cons p ps =>
      have h := bbox_bounds (p :: ps) p (by simp)
      exact ⟨le_trans h.1 h.2.1, le_trans h.2.2.1 h.2.2.2⟩

lemma bbox_width_eq (path : List Point) :
    (getPathBoundingBox path).width =
      (getPathBoundingBox path).maxX - (getPathBoundingBox path).minX ∧
    (getPathBoundingBox path).height =
      (getPathBoundingBox path).maxY - (getPathBoundingBox path).minY := by
  cases path with
  | nil => simp [getPathBoundingBox]
  | cons p ps => simp [getPathBoundingBox]

lemma normalizePath_length (path : List Point) :
    (normalizePath path).length = path.length := by
  simp only [normalizePath]
  split
  · rfl
  · simp

/-! ### Claim C8: normalizePath degenerate-case policy and output range -/

/-- C8: a path whose bounding box has zero width or zero height is
returned unchanged by `normalizePath`; for every other path, every
coordinate of every output point lies in the interval from 0 to 1. -/
theorem normalizePath_range (path : List Point) (pt : Point) :
    (((getPathBoundingBox path).width = 0 ∨
        (getPathBoundingBox path).height = 0) →
      normalizePath path = path) ∧
    ((getPathBoundingBox path).width ≠ 0 →
      (getPathBoundingBox path).height ≠ 0 →
      pt ∈ normalizePath path →
      0 ≤ pt.x ∧ pt.x ≤ 1 ∧ 0 ≤ pt.y ∧ pt.y ≤ 1) := by
  constructor
  · intro hdeg
    simp only [normalizePath]
    rw [if_pos hdeg]
  · intro hw hh hmem
    simp only [normalizePath] at hmem
    rw [if_neg (by push_neg; exact ⟨hw, hh⟩)] at hmem
    rcases List.mem_map.mp hmem with ⟨q, hq, hpt⟩
    have hne : path ≠ [] := by
      intro h; subst h; simp at hq
    have hb := bbox_bounds path q hq
    have hwe := (bbox_width_eq path).1
    have hhe := (bbox_width_eq path).2
    have hmm := bbox_min_le_max path hne
    have hw0 : (0 : ℚ) ≤ (getPathBoundingBox path).width := by
      rw [hwe]; linarith [hmm.1]
    have hh0 : (0 : ℚ) ≤ (getPathBoundingBox path).height := by
      rw [hhe]; linarith [hmm.2]
    have hwpos : 0 < (getPathBoundingBox path).width :=
      lt_of_le_of_ne hw0 (Ne.symm hw)
    have hhpos : 0 < (getPathBoundingBox path).height :=
      lt_of_le_of_ne hh0 (Ne.symm hh)
    subst hpt
    refine ⟨div_nonneg (by linarith [hb.1]) hwpos.le, ?_,
      div_nonneg (by linarith [hb.2.2.1]) hhpos.le, ?_⟩
    · exact (div_le_one hwpos).mpr (by rw [hwe]; linarith [hb.2.1])
    · exact (div_le_one hhpos).mpr (by rw [hhe]; linarith [hb.2.2.2])

/-- C8 witness: the theorem applied to a degenerate horizontal path
(returned unchanged) and to a non-degenerate path (a specific normalized
point of which lies inside the unit box). -/
theorem normalizePath_range_witness :
    normalizePath [⟨0,0⟩, ⟨5,0⟩] = [⟨0,0⟩, ⟨5,0⟩] ∧
    (0 ≤ (⟨3/10, 1⟩ : Point).x ∧ (⟨3/10, 1⟩ : Point).x ≤ 1 ∧
      0 ≤ (⟨3/10, 1⟩ : Point).y ∧ (⟨3/10, 1⟩ : Point).y ≤ 1) := by
  constructor
  · exact (normalizePath_range [⟨0,0⟩, ⟨5,0⟩] ⟨0,0⟩).1
      (by norm_num [getPathBoundingBox])
  · exact (normalizePath_range [⟨0,0⟩, ⟨10,5⟩, ⟨3,10⟩] ⟨3/10, 1⟩).2
      (by norm_num [getPathBoundingBox])
      (by norm_num [getPathBoundingBox])
      (by norm_num [normalizePath, getPathBoundingBox])

/-! ### Claim C9: normalizePath is the identity on already-normalized paths -/

/-- C9: on a path whose bounding box is exactly the unit box,
`normalizePath` returns the path unchanged (exactly, since the embedding
computes with exact rationals). -/
theorem normalizePath_idempotent (path : List Point)
    (h : getPathBoundingBox path = ⟨0, 1, 0, 1, 1, 1⟩) :
    normalizePath path = path := by
  simp only [normalizePath, h]
  norm_num

/-- C9 witness: the idempotence theorem applied to a concrete path whose
bounding box is the unit box. -/
theorem normalizePath_idempotent_witness :
    getPathBoundingBox [⟨0,0⟩, ⟨1,1⟩, ⟨3/10, 7/10⟩] = ⟨0, 1, 0, 1, 1, 1⟩ ∧
      normalizePath [⟨0,0⟩, ⟨1,1⟩, ⟨3/10, 7/10⟩] =
        [⟨0,0⟩, ⟨1,1⟩, ⟨3/10, 7/10⟩] :=
  ⟨by norm_num [getPathBoundingBox],
    normalizePath_idempotent _ (by norm_num [getPathBoundingBox])⟩

/-! ### Helper lemmas: the bounding box of a normalized path is the unit box -/

lemma foldl_min_map (g : ℚ → ℚ) (F : Point → Point) (f : Point → ℚ)
    (hg : ∀ a b, g (min a b) = min (g a) (g b))
    (hF : ∀ pt, f (F pt) = g (f pt)) :
    ∀ (l : List Point) (c : ℚ),
      (l.map F).foldl (fun a q => min a (f q)) (g c) =
        g (l.foldl (fun a q => min a (f q)) c) := by
  intro l
  induction l with
  | nil => intro c; rfl
  | cons hd tl ih =>
      intro c
      simp only [List.map_cons, List.foldl_cons]
      rw [hF hd, ← hg, ih]

lemma foldl_max_map (g : ℚ → ℚ) (F : Point → Point) (f : Point → ℚ)
    (hg : ∀ a b, g (max a b) = max (g a) (g b))
    (hF : ∀ pt, f (F pt) = g (f pt)) :
    ∀ (l : List Point) (c : ℚ),
      (l.map F).foldl (fun a q => max a (f q)) (g c) =
        g (l.foldl (fun a q => max a (f q)) c) := by
  intro l
  induction l with
  | nil => intro c; rfl
  | cons hd tl ih =>
      intro c
      simp only [List.map_cons, List.foldl_cons]
      rw [hF hd, ← hg, ih]

lemma affine_min_comm (m w : ℚ) (hw : 0 < w) (a b : ℚ) :
    (min a b - m) / w = min ((a - m) / w) ((b - m) / w) := by
  rcases le_total a b with h | h
  · rw [min_eq_left h,
      min_eq_left ((div_le_div_iff_of_pos_right hw).mpr (by linarith))]
  · rw [min_eq_right h,
      min_eq_right ((div_le_div_iff_of_pos_right hw).mpr (by linarith))]

lemma affine_max_comm (m w : ℚ) (hw : 0 < w) (a b : ℚ) :
    (max a b - m) / w = max ((a - m) / w) ((b - m) / w) := by
  rcases le_total a b with h | h
  · rw [max_eq_right h,
      max_eq_right ((div_le_div_iff_of_pos_right hw).mpr (by linarith))]
  · rw [max_eq_left h,
      max_eq_left ((div_le_div_iff_of_pos_right hw).mpr (by linarith))]

lemma bbox_normalizePath_unit (path : List Point)
    (hw : (getPathBoundingBox path).width ≠ 0)
    (hh : (getPathBoundingBox path).height ≠ 0) :
    getPathBoundingBox (normalizePath path) = ⟨0, 1, 0, 1, 1, 1⟩ := by
  cases path with
  | nil => simp [getPathBoundingBox] at hw
  | cons p ps =>
      have hne : p :: ps ≠ [] := by simp
      have hwe := (bbox_width_eq (p :: ps)).1
      have hhe := (bbox_width_eq (p :: ps)).2
      have hmm := bbox_min_le_max (p :: ps) hne
      have hw0 : (0 : ℚ) ≤ (getPathBoundingBox (p :: ps)).width := by
        rw [hwe]; linarith [hmm.1]
      have hh0 : (0 : ℚ) ≤ (getPathBoundingBox (p :: ps)).height := by
        rw [hhe]; linarith [hmm.2]
      have hwpos : 0 < (getPathBoundingBox (p :: ps)).width :=
        lt_of_le_of_ne hw0 (Ne.symm hw)
      have hhpos : 0 < (getPathBoundingBox (p :: ps)).height :=
        lt_of_le_of_ne hh0 (Ne.symm hh)
      simp only [normalizePath]
      rw [if_neg (by push_neg; exact ⟨hw, hh⟩)]
      set B := getPathBoundingBox (p :: ps) with hB
      have hmx : B.minX = ps.foldl (fun a q => min a q.x) p.x := by
        rw [hB]; rfl
      have hMx : B.maxX = ps.foldl (fun a q => max a q.x) p.x := by
        rw [hB]; rfl
      have hmy : B.minY = ps.foldl (fun a q => min a q.y) p.y := by
        rw [hB]; rfl
      have hMy : B.maxY = ps.foldl (fun a q => max a q.y) p.y := by
        rw [hB]; rfl
      simp only [List.map_cons, getPathBoundingBox]
      have hminx := foldl_min_map (fun t => (t - B.minX) / B.width)
        (fun point => ⟨(point.x - B.minX) / B.width, (point.y - B.minY) / B.height⟩)
        (fun q => q.x) (affine_min_comm B.minX B.width hwpos)
        (fun pt => rfl) ps p.x
      have hmaxx := foldl_max_map (fun t => (t - B.minX) / B.width)
        (fun point => ⟨(point.x - B.minX) / B.width, (point.y - B.minY) / B.height⟩)
        (fun q => q.x) (affine_max_comm B.minX B.width hwpos)
        (fun pt => rfl) ps p.x
      have hminy := foldl_min_map (fun t => (t - B.minY) / B.height)
        (fun point => ⟨(point.x - B.minX) / B.width, (point.y - B.minY) / B.height⟩)
        (fun q => q.y) (affine_min_comm B.minY B.height hhpos)
        (fun pt => rfl) ps p.y
      have hmaxy := foldl_max_map (fun t => (t - B.minY) / B.height)
        (fun point => ⟨(point.x - B.minX) / B.width, (point.y - B.minY) / B.height⟩)
        (fun q => q.y) (affine_max_comm B.minY B.height hhpos)
        (fun pt => rfl) ps p.y
      simp only at hminx hmaxx hminy hmaxy
      rw [hminx, hmaxx, hminy, hmaxy, ← hmx, ← hMx, ← hmy, ← hMy]
      have hxw : (B.maxX - B.minX) / B.width = 1 := by
        rw [← hwe]; exact div_self hw
      have hxm : (B.minX - B.minX) / B.width = 0 := by
        rw [sub_self]; exact zero_div _
      have hyh : (B.maxY - B.minY) / B.height = 1 := by
        rw [← hhe]; exact div_self hh
      have hym : (B.minY - B.minY) / B.height = 0 := by
        rw [sub_self]; exact zero_div _
      rw [hxw, hxm, hyh, hym]
      norm_num

lemma extractFeatures_eq_some (az : ℚ → ℚ → ℚ) (path : List Point)
    (f : Features) (h : extractFeatures az path = some f) :
    ¬ path.length < 5 ∧
    ¬ (normalizePath (simplifyPath path 5)).length < 3 ∧
    f.normalizedPath = normalizePath (simplifyPath path 5) ∧
    f.aspectRatio =
      (getPathBoundingBox (normalizePath (simplifyPath path 5))).width /
        (if (getPathBoundingBox (normalizePath (simplifyPath path 5))).height = 0
         then 1
         else (getPathBoundingBox (normalizePath (simplifyPath path 5))).height) := by
  simp only [extractFeatures] at h
  split at h
  · exact absurd h (by simp)
  · split at h
    · exact absurd h (by simp)
    · rename_i h5 h3
      refine ⟨h5, h3, ?_, ?_⟩
      · rw [← Option.some.inj h]
      · rw [← Option.some.inj h]

/-! ### Claim C5: a non-degenerate simplified path always yields aspect ratio 1 -/

/-- C5: whenever `extractFeatures` succeeds and the simplified path's
bounding box has nonzero width and nonzero height, the extracted
`aspectRatio` is exactly 1 — the bounding box is taken from the
normalized path, whose extremes map exactly to 0 and 1 — and therefore
the classifier's aspect-ratio gate (strictly between 1/2 and 2) passes;
the gate can only fail when the simplified path is degenerate and
normalization was skipped. -/
theorem extractFeatures_unit_aspect (az : ℚ → ℚ → ℚ) (path : List Point)
    (f : Features) (hf : extractFeatures az path = some f)
    (hw : (getPathBoundingBox (simplifyPath path 5)).width ≠ 0)
    (hh : (getPathBoundingBox (simplifyPath path 5)).height ≠ 0) :
    f.aspectRatio = 1 ∧ 1/2 < f.aspectRatio ∧ f.aspectRatio < 2 := by
  obtain ⟨-, -, -, har⟩ := extractFeatures_eq_some az path f hf
  rw [bbox_normalizePath_unit (simplifyPath path 5) hw hh] at har
  norm_num at har
  exact ⟨har, by rw [har]; norm_num⟩

/-- C5 witness: the theorem applied to a concrete chevron-shaped path
whose simplified bounding box is 50 wide and 100 high, with the abstract
bearing function instantiated to the constant 0. -/
theorem extractFeatures_unit_aspect_witness :
    extractFeatures (fun _ _ => 0) [⟨0,0⟩, ⟨25,25⟩, ⟨50,50⟩, ⟨25,75⟩, ⟨0,100⟩] =
      some ⟨"right", 0, 1/2, 1, 0, 1, 5,
        [⟨0,0⟩, ⟨1/2,1/4⟩, ⟨1,1/2⟩, ⟨1/2,3/4⟩, ⟨0,1⟩]⟩ ∧
    (⟨"right", 0, 1/2, 1, 0, 1, 5,
        [⟨0,0⟩, ⟨1/2,1/4⟩, ⟨1,1/2⟩, ⟨1/2,3/4⟩, ⟨0,1⟩]⟩ : Features).aspectRatio = 1 := by
  have hf : extractFeatures (fun _ _ => 0)
      [⟨0,0⟩, ⟨25,25⟩, ⟨50,50⟩, ⟨25,75⟩, ⟨0,100⟩] =
      some ⟨"right", 0, 1/2, 1, 0, 1, 5,
        [⟨0,0⟩, ⟨1/2,1/4⟩, ⟨1,1/2⟩, ⟨1/2,3/4⟩, ⟨0,1⟩]⟩ := by
    norm_num [extractFeatures, simplifyPath, simplifyAux, distGtTol, normalizePath,
      getPathBoundingBox, calculateCurvature, angleDiffs, calculateAngle]
  refine ⟨hf, ?_⟩
  exact (extractFeatures_unit_aspect (fun _ _ => 0)
    [⟨0,0⟩, ⟨25,25⟩, ⟨50,50⟩, ⟨25,75⟩, ⟨0,100⟩] _ hf
    (by norm_num [simplifyPath, simplifyAux, distGtTol, getPathBoundingBox])
    (by norm_num [simplifyPath, simplifyAux, distGtTol, getPathBoundingBox])).1

/-! ### Helper lemmas about the score maximum selection -/

lemma bestOf_pair_fst (s1 s2 : ℚ) :
    (bestOf [(">", s1), ("<", s2)]).1 = "=" ∨
      (bestOf [(">", s1), ("<", s2)]).1 = ">" ∨
      (bestOf [(">", s1), ("<", s2)]).1 = "<" := by
  simp only [bestOf, List.foldl_cons, List.foldl_nil]
  split_ifs <;> simp

lemma computeScores_gate_closed (f : Features)
    (hgate : ¬(f.aspectRatio > 1/2 ∧ f.aspectRatio < 2)) :
    computeScores f = (0, 0) := by
  simp only [computeScores]
  rw [if_neg hgate]

/-! ### Claim C1: fewer than 5 points always yields the default result -/

/-- C1: for every input of fewer than 5 points, `recognizeSymbol` returns
the symbol `=` with confidence 0, regardless of the points' values and of
the bearing function. -/
theorem recognizeSymbol_short_path (az : ℚ → ℚ → ℚ) (path : List Point)
    (h : path.length < 5) : recognizeSymbol az path = ⟨"=", 0⟩ := by
  simp only [recognizeSymbol]
  rw [if_pos h]

/-- C1 witness: the short-path theorem applied to a concrete 2-point
input. -/
theorem recognizeSymbol_short_path_witness :
    ([(⟨3, 7⟩ : Point), ⟨4, 8⟩] : List Point).length < 5 ∧
      recognizeSymbol (fun _ _ => 0) [⟨3, 7⟩, ⟨4, 8⟩] = ⟨"=", 0⟩ :=
  ⟨by norm_num, recognizeSymbol_short_path _ _ (by norm_num)⟩

/-! ### Claim C2: the result is always a known symbol with confidence in [0,100] -/

/-- C2: for every input point sequence (and every bearing function), the
symbol returned by `recognizeSymbol` is one of `>`, `<`, `=` and the
confidence is between 0 and 100. -/
theorem recognizeSymbol_result_valid (az : ℚ → ℚ → ℚ) (path : List Point) :
    ((recognizeSymbol az path).symbol = ">" ∨
      (recognizeSymbol az path).symbol = "<" ∨
      (recognizeSymbol az path).symbol = "=") ∧
    0 ≤ (recognizeSymbol az path).confidence ∧
      (recognizeSymbol az path).confidence ≤ 100 := by
  simp only [recognizeSymbol]
  split
  · norm_num
  · cases hF : extractFeatures az path with
    | none => norm_num
    | some f =>
        simp only
        split
        · norm_num
        · rename_i hge
          push_neg at hge
          refine ⟨?_, ?_, ?_⟩
          · rcases bestOf_pair_fst (computeScores f).1 (computeScores f).2 with
              h | h | h
            · exact Or.inr (Or.inr h)
            · exact Or.inl h
            · exact Or.inr (Or.inl h)
          · exact le_min (by norm_num) (le_trans (by norm_num) hge)
          · exact min_le_left _ _

/-! ### Claim C4: a failed aspect-ratio gate forces the default result -/

/-- C4: whenever the extracted aspect ratio lies outside the open
interval from 1/2 to 2, both directional symbol scores are 0 and
`recognizeSymbol` returns the symbol `=` with confidence 0. -/
theorem recognizeSymbol_gate_closed (az : ℚ → ℚ → ℚ) (path : List Point)
    (f : Features) (hf : extractFeatures az path = some f)
    (hgate : ¬(f.aspectRatio > 1/2 ∧ f.aspectRatio < 2)) :
    computeScores f = (0, 0) ∧ recognizeSymbol az path = ⟨"=", 0⟩ := by
  have hs := computeScores_gate_closed f hgate
  have h5 := (extractFeatures_eq_some az path f hf).1
  refine ⟨hs, ?_⟩
  simp only [recognizeSymbol]
  rw [if_neg h5, hf]
  simp only [hs]
  norm_num [bestOf]

/-- C4 witness: the gate theorem applied to a concrete horizontal path,
whose degenerate (zero-height) simplified bounding box yields aspect
ratio 40, far outside the gate. -/
theorem recognizeSymbol_gate_closed_witness :
    computeScores ⟨"right", 0, 0, 0, 0, 40, 5,
        [⟨0,0⟩, ⟨10,0⟩, ⟨20,0⟩, ⟨30,0⟩, ⟨40,0⟩]⟩ = (0, 0) ∧
      recognizeSymbol (fun _ _ => 0) [⟨0,0⟩, ⟨10,0⟩, ⟨20,0⟩, ⟨30,0⟩, ⟨40,0⟩] =
        ⟨"=", 0⟩ :=
  recognizeSymbol_gate_closed (fun _ _ => 0)
    [⟨0,0⟩, ⟨10,0⟩, ⟨20,0⟩, ⟨30,0⟩, ⟨40,0⟩]
    ⟨"right", 0, 0, 0, 0, 40, 5, [⟨0,0⟩, ⟨10,0⟩, ⟨20,0⟩, ⟨30,0⟩, ⟨40,0⟩]⟩
    (by norm_num [extractFeatures, simplifyPath, simplifyAux, distGtTol,
      normalizePath, getPathBoundingBox, calculateCurvature, angleDiffs,
      calculateAngle])
    (by norm_num)

/-! ### Claim C10: the chevron scenario (0,0) to (50,50) to (0,100) -/

/-- C10 counterexample: the literal three-point input tracing
(0,0), (50,50), (0,100) has fewer than 5 points, so `recognizeSymbol`
returns the default symbol `=` with confidence 0 and in particular does
not return the symbol `>`. -/
theorem recognizeSymbol_scenarioA_cex :
    recognizeSymbol (fun _ _ => 0) [⟨0,0⟩, ⟨50,50⟩, ⟨0,100⟩] = ⟨"=", 0⟩ ∧
      ((recognizeSymbol (fun _ _ => 0) [⟨0,0⟩, ⟨50,50⟩, ⟨0,100⟩]).symbol = ">" →
        False) := by
  have h : recognizeSymbol (fun _ _ => 0) [⟨0,0⟩, ⟨50,50⟩, ⟨0,100⟩] = ⟨"=", 0⟩ := by
    norm_num [recognizeSymbol]
  refine ⟨h, ?_⟩
  rw [h]
  simp

/-- C10 amended: a five-point sampling of the same trace, passing through
(0,0), (25,25), (50,50), (25,75), (0,100), is classified as `>` with
confidence exactly 40 (hence at least 40), for every bearing function. -/
theorem recognizeSymbol_scenarioA (az : ℚ → ℚ → ℚ) :
    recognizeSymbol az [⟨0,0⟩, ⟨25,25⟩, ⟨50,50⟩, ⟨25,75⟩, ⟨0,100⟩] =
      ⟨">", 40⟩ ∧
    40 ≤ (recognizeSymbol az [⟨0,0⟩, ⟨25,25⟩, ⟨50,50⟩, ⟨25,75⟩, ⟨0,100⟩]).confidence := by
  have h : recognizeSymbol az [⟨0,0⟩, ⟨25,25⟩, ⟨50,50⟩, ⟨25,75⟩, ⟨0,100⟩] =
      ⟨">", 40⟩ := by
    norm_num [recognizeSymbol, extractFeatures, simplifyPath, simplifyAux,
      distGtTol, normalizePath, getPathBoundingBox, computeScores, bestOf]
  exact ⟨h, by rw [h]⟩

/-! ### Claim C3: what the validity filter drops -/

/-- C3 counterexample: a point with an `Infinity` coordinate is of type
number and is not `NaN`, so the validity filter of `extractFeatures` in
`src/utils/symbolUtils.ts` keeps it: the filtered path handed to
simplification still contains the non-finite point. -/
theorem safePath_keeps_infinite_cex :
    safePath [some ⟨JSVal.inf, JSVal.num 0⟩] = [some ⟨JSVal.inf, JSVal.num 0⟩] ∧
      JSVal.isFiniteNum JSVal.inf = false := by
  constructor
  · norm_num [safePath, jsTypeofNumber, jsIsNaN, List.filter]
  · rfl

/-- C3 amended: the validity filter drops exactly the entries that are
missing or have a non-numeric or `NaN` coordinate; every surviving entry
is a present point whose coordinates are numbers other than `NaN` —
possibly infinite — and the filter preserves the original order (the
output is a sublist of the input). -/
theorem safePath_characterization (path : List (Option RawPoint))
    (entry : Option RawPoint) :
    (entry ∈ safePath path ↔
      entry ∈ path ∧ ∃ p : RawPoint, entry = some p ∧
        jsTypeofNumber p.x = true ∧ jsTypeofNumber p.y = true ∧
        jsIsNaN p.x = false ∧ jsIsNaN p.y = false) ∧
    (safePath path).Sublist path := by
  constructor
  · rw [safePath, List.mem_filter]
    constructor
    · rintro ⟨hmem, hkeep⟩
      refine ⟨hmem, ?_⟩
      cases entry with
      | none => simp at hkeep
      | some p =>
          simp only [Bool.and_eq_true, Bool.not_eq_true'] at hkeep
          exact ⟨p, rfl, hkeep.1.1.1, hkeep.1.1.2, hkeep.1.2, hkeep.2⟩
    · rintro ⟨hmem, p, rfl, h1, h2, h3, h4⟩
      refine ⟨hmem, ?_⟩
      simp only [Bool.and_eq_true, Bool.not_eq_true']
      exact ⟨⟨⟨h1, h2⟩, h3⟩, h4⟩
  · exact List.filter_sublist path
